import Mathlib

/-!
Verification of the streaming compression adapters of `zstd-rs`
(`src/stream/mod.rs`): the convenience functions `encode_all`,
`decode_all`, `copy_encode`, `copy_decode` and the `Encoder`/`Decoder`
adapters they are built from.

Only `src/stream/mod.rs` (the convenience glue and the test suite) is
available; `src/stream/encoder.rs` and `src/stream/decoder.rs` are not.
The adapters and the frame wire format are therefore modelled from the
specification: a byte stream is a concatenation of self-delimited frames,
each a magic number followed by compressed blocks and a footer; the
Encoder stages codec output in an internal buffer and drains it into a
destination that may accept only part of each write; the Decoder reads
frames back, classifying truncation (`UnexpectedEof`) separately from
corruption (`Other`).

Bytes are modelled as `Nat` (the framing never relies on the 0..255
bound), destinations as an explicit sink with a partial-acceptance mode
mirroring the test double `WritePartial`, and `io::Result` as `Except`
over an error-kind type.
-/

/-- Error kinds visible to callers, mirroring the `io::ErrorKind` values
the stream module distinguishes: truncation (`UnexpectedEof`), corruption
(`Other`), backpressure (`WouldBlock`), an invalid compression level at
construction, and a caller contract violation (a Rust panic). -/
inductive Err where
  | unexpectedEof
  | other
  | wouldBlock
  | config
  | violation
  deriving DecidableEq, Repr

/-- Modelled from the spec: the codec's variable-length integer used in a
block header to declare the block's content length (the codec engine and
its wire format are external collaborators, absent from `src/`).
Little-endian base-128 with a continuation bit. -/
def encodeVarint (n : Nat) : List Nat :=
  if h : n < 128 then [n] else (128 + n % 128) :: encodeVarint (n / 128)
termination_by n
decreasing_by exact Nat.div_lt_self (by omega) (by omega)

/-- Modelled from the spec: decoding of the block-length varint; returns
the value and the unconsumed tail, or `none` when the bytes end before
the varint is complete. -/
def decodeVarint : List Nat → Option (Nat × List Nat)
  | [] => none
  | b :: rest =>
    if b < 128 then some (b, rest)
    else
      match decodeVarint rest with
      | none => none
      | some (m, r) => some ((b - 128) + 128 * m, r)

theorem decodeVarint_encodeVarint (n : Nat) (tail : List Nat) :
    decodeVarint (encodeVarint n ++ tail) = some (n, tail) := by
  induction n using Nat.strong_induction_on with
  | _ n ih =>
    by_cases h : n < 128
    · rw [encodeVarint]
      simp [decodeVarint, h]
    · rw [encodeVarint]
      simp only [h, dite_false, List.cons_append]
      have hlt : n / 128 < n := Nat.div_lt_self (by omega) (by omega)
      rw [decodeVarint]
      have hge : ¬ (128 + n % 128 < 128) := by omega
      simp only [hge, if_false, ih (n / 128) hlt]
      have : 128 + n % 128 - 128 + 128 * (n / 128) = n := by
        have := Nat.mod_add_div n 128
        omega
      rw [this]

/-- Modelled from the spec: the frame's self-delimited body after the
magic number — a sequence of blocks, each a tag byte `1` followed by a
varint content length and that many content bytes, closed by the footer
tag `0` ("compressed blocks + optional checksum"). `encodeFrameBody`
produces the body holding `data` (empty data gives a bare footer). -/
def encodeFrameBody (data : List Nat) : List Nat :=
  (if data.isEmpty then [] else 1 :: (encodeVarint data.length ++ data)) ++ [0]

/-- Current-format magic number bytes. -/
def MAGIC : List Nat := [40, 181, 47, 253]

/-- Modelled from the spec: magic number of a legacy format revision,
distinguished from the current magic by its last byte. -/
def legacyMagic (v : Nat) : List Nat := [40, 181, 47, v]

/-- Modelled from the spec: the leading magic bytes the Decoder
recognizes — the current format plus the four legacy format revisions
(versions 5 to 8). -/
def recognizedTag (t : Nat) : Bool :=
  t == 253 || t == 5 || t == 6 || t == 7 || t == 8

theorem decodeVarint_length {l : List Nat} {n : Nat} {r : List Nat}
    (h : decodeVarint l = some (n, r)) : r.length < l.length := by
  induction l generalizing n r with
  | nil => simp [decodeVarint] at h
  | cons b rest ih =>
    rw [decodeVarint] at h
    by_cases hb : b < 128
    · simp [hb] at h
      obtain ⟨-, rfl⟩ := h
      simp
    · simp only [hb, if_false] at h
      match hd : decodeVarint rest with
      | none => rw [hd] at h; exact absurd h (by simp)
      | some (m, r2) =>
        rw [hd] at h
        simp at h
        obtain ⟨-, rfl⟩ := h
        have := ih hd
        simp
        omega

/-- Modelled from the spec: the Decoder's in-frame loop. Consumes one
frame body from `l`: on the footer tag it returns the decompressed
content and the unconsumed rest; when the bytes end before the frame's
declared content is complete it fails with `unexpectedEof`; an
unrecognized block tag is corruption (`other`). -/
def readFrameBody (l : List Nat) : Except Err (List Nat × List Nat) :=
  match l with
  | [] => .error .unexpectedEof
  | b :: rest =>
    if b = 0 then .ok ([], rest)
    else if b = 1 then
      match h : decodeVarint rest with
      | none => .error .unexpectedEof
      | some (n, r) =>
        if hn : n ≤ r.length then
          match readFrameBody (r.drop n) with
          | .ok (c, rest2) => .ok (r.take n ++ c, rest2)
          | .error e => .error e
        else .error .unexpectedEof
    else .error .other
termination_by l.length
decreasing_by
  have := decodeVarint_length h
  simp only [List.length_drop, List.length_cons]
  omega

theorem readFrameBody_length_le {fuel : Nat} :
    ∀ {l : List Nat}, l.length ≤ fuel → ∀ {c r : List Nat},
      readFrameBody l = .ok (c, r) → r.length < l.length := by
  induction fuel with
  | zero =>
    intro l hl c r h
    match l with
    | [] => simp [readFrameBody] at h
  | succ fuel ih =>
    intro l hl c r h
    match l with
    | [] => simp [readFrameBody] at h
    | b :: rest =>
      rw [readFrameBody] at h
      split at h
      · cases h
        simp
      · split at h
        · split at h
          · cases h
          · rename_i n r2 hd
            split at h
            · rename_i hn
              split at h
              · rename_i c2 rest2 hrec
                cases h
                have h1 := decodeVarint_length hd
                have h2 : (r2.drop n).length ≤ fuel := by
                  simp only [List.length_cons] at hl
                  simp only [List.length_drop]
                  omega
                have h3 := ih h2 hrec
                simp only [List.length_drop] at h3
                simp only [List.length_cons]
                omega
              · cases h
            · cases h
        · cases h

theorem readFrameBody_length {l : List Nat} {c r : List Nat}
    (h : readFrameBody l = .ok (c, r)) : r.length < l.length :=
  readFrameBody_length_le le_rfl h

/-- Modelled from the spec: the Decoder's frame-scanning loop, used by
`read` until the source is exhausted. An empty source is clean
end-of-stream; a recognized magic number (current or legacy, auto-detected
from the leading bytes) starts a frame whose content is appended to the
result; anything else is corruption (`other`). -/
def decodeStream (l : List Nat) : Except Err (List Nat) :=
  match l with
  | [] => .ok []
  | a :: b :: c :: t :: rest =>
    if a = 40 ∧ b = 181 ∧ c = 47 ∧ recognizedTag t then
      match hf : readFrameBody rest with
      | .ok (content, rest2) =>
        match decodeStream rest2 with
        | .ok more => .ok (content ++ more)
        | .error e => .error e
      | .error e => .error e
    else .error .other
  | _ => .error .other
termination_by l.length
decreasing_by
  have := readFrameBody_length hf
  simp only [List.length_cons]
  omega

theorem readFrameBody_encodeFrameBody (data tail : List Nat) :
    readFrameBody (encodeFrameBody data ++ tail) = .ok (data, tail) := by
  match data with
  | [] =>
    have he : encodeFrameBody [] ++ tail = 0 :: tail := by
      simp [encodeFrameBody]
    rw [he, readFrameBody]
    simp
  | d :: ds =>
    have he : encodeFrameBody (d :: ds) ++ tail
        = 1 :: (encodeVarint (d :: ds).length ++ ((d :: ds) ++ ([0] ++ tail))) := by
      simp [encodeFrameBody]
    rw [he, readFrameBody]
    rw [if_neg (by decide), if_pos rfl]
    have hv : decodeVarint (encodeVarint (d :: ds).length ++
        ((d :: ds) ++ ([0] ++ tail))) = some ((d :: ds).length, (d :: ds) ++ ([0] ++ tail)) :=
      decodeVarint_encodeVarint _ _
    split
    · rename_i heq
      rw [hv] at heq
      cases heq
    · rename_i n r heq
      rw [hv] at heq
      cases heq
      have hn : (d :: ds).length ≤ ((d :: ds) ++ ([0] ++ tail)).length := by
        simp
      rw [dif_pos hn]
      have htake : ((d :: ds) ++ ([0] ++ tail)).take (d :: ds).length = d :: ds :=
        List.take_left _ _
      have hdrop : ((d :: ds) ++ ([0] ++ tail)).drop (d :: ds).length = [0] ++ tail :=
        List.drop_left _ _
      rw [htake, hdrop]
      have hrest : readFrameBody ([0] ++ tail) = .ok ([], tail) := by
        rw [List.singleton_append, readFrameBody]
        simp
      rw [hrest]
      simp

theorem decodeStream_frame (t : Nat) (ht : recognizedTag t = true)
    (B rest : List Nat) :
    decodeStream (40 :: 181 :: 47 :: t :: (encodeFrameBody B ++ rest))
      = match decodeStream rest with
        | .ok more => .ok (B ++ more)
        | .error e => .error e := by
  rw [decodeStream]
  rw [if_pos ⟨rfl, rfl, rfl, ht⟩]
  split
  · rename_i content rest2 heq
    rw [readFrameBody_encodeFrameBody] at heq
    cases heq
    rfl
  · rename_i e heq
    rw [readFrameBody_encodeFrameBody] at heq
    cases heq

theorem decodeStream_single (t : Nat) (ht : recognizedTag t = true)
    (B : List Nat) :
    decodeStream (40 :: 181 :: 47 :: t :: encodeFrameBody B) = .ok B := by
  have h0 : encodeFrameBody B = encodeFrameBody B ++ [] := by simp
  rw [h0, decodeStream_frame t ht B []]
  rw [decodeStream]
  simp

/-- Destination sink, mirroring the test double `WritePartial` in
`src/stream/mod.rs` (lines 112-153): `inner` is the bytes durably
accepted so far; `accept = none` rejects every write and flush with
`WouldBlock`, `accept = some 0` accepts everything (an ordinary `Vec`
sink), `accept = some n` (n > 0) accepts at most `n` bytes per call. -/
structure Sink where
  inner : List Nat
  accept : Option Nat
  deriving DecidableEq, Repr

/-- One `write` call on the sink (`WritePartial::write`): returns the
updated sink and the number of bytes accepted, or `WouldBlock`. -/
def Sink.write (w : Sink) (buf : List Nat) : Except Err (Sink × Nat) :=
  match w.accept with
  | none => .error .wouldBlock
  | some 0 => .ok ({ w with inner := w.inner ++ buf }, buf.length)
  | some n => .ok ({ w with inner := w.inner ++ buf.take (min n buf.length) },
                   min n buf.length)

/-- The sink's `flush` (`WritePartial::flush`): `WouldBlock` when writes
are rejected, a no-op otherwise. -/
def Sink.flushSink (w : Sink) : Except Err Sink :=
  match w.accept with
  | none => .error .wouldBlock
  | some _ => .ok w

/-- Modelled from the spec: the shared buffer-draining helper. Repeatedly
writes the pending bytes of the Internal Buffer to the destination until
nothing is pending or the destination fails; returns the updated sink,
the bytes still pending, and the error if any (pending bytes are kept,
never dropped, so a retry resumes where it left off). A write accepting
zero bytes is a fatal sink error. -/
def drain (w : Sink) (pending : List Nat) : Sink × List Nat × Option Err :=
  match pending with
  | [] => (w, [], none)
  | x :: xs =>
    match Sink.write w (x :: xs) with
    | .error e => (w, x :: xs, some e)
    | .ok (w2, k) =>
      if k = 0 then (w2, x :: xs, some .other)
      else drain w2 ((x :: xs).drop k)
termination_by pending.length
decreasing_by
  rename_i hk
  simp only [List.length_drop, List.length_cons]
  omega

/-- The Encoder's phase: `active` accepts writes, `finishing` means a
finish was initiated but its output is not yet fully drained, `finished`
means the frame is closed. -/
inductive EncPhase where
  | active
  | finishing
  | finished
  deriving DecidableEq, Repr

/-- Modelled from the spec: the Encoder adapter (`src/stream/encoder.rs`
is absent from `src/`): destination sink, Internal Buffer of staged
compressed bytes not yet accepted by the destination, and the
finish-protocol phase. -/
structure Encoder where
  dest : Sink
  pending : List Nat
  phase : EncPhase
  deriving DecidableEq, Repr

/-- Valid compression levels accepted at Encoder construction. -/
def validLevel (level : Int) : Bool := 1 ≤ level && level ≤ 21

/-- Modelled from the spec: `Encoder::new` validates the level
(`ConfigError` otherwise) and opens a frame, staging the magic-number
bytes in the Internal Buffer. -/
def Encoder.new (dest : Sink) (level : Int) : Except Err Encoder :=
  if validLevel level then .ok ⟨dest, MAGIC, .active⟩ else .error .config

/-- Modelled from the spec: `Encoder::write`. A write after finish was
initiated is a caller contract violation (a panic in Rust). Otherwise the
pending buffer is drained first; if the destination still cannot absorb
it, zero bytes are accepted (backpressure, nothing dropped). Once the
buffer is clear, the input is fed through the codec engine as one block,
staged, and opportunistically drained; the full input counts as accepted
since it is safely staged in the Internal Buffer. -/
def Encoder.write (e : Encoder) (data : List Nat) : Except Err (Encoder × Nat) :=
  match e.phase with
  | .active =>
    match drain e.dest e.pending with
    | (w2, p2, some .wouldBlock) => .ok ({ e with dest := w2, pending := p2 }, 0)
    | (_, _, some er) => .error er
    | (w2, _, none) =>
      if data.isEmpty then .ok ({ e with dest := w2, pending := [] }, 0)
      else
        match drain w2 (1 :: (encodeVarint data.length ++ data)) with
        | (w3, p3, none) => .ok ({ e with dest := w3, pending := p3 }, data.length)
        | (w3, p3, some .wouldBlock) =>
          .ok ({ e with dest := w3, pending := p3 }, data.length)
        | (_, _, some er) => .error er
  | _ => .error .violation

/-- Modelled from the spec: `Encoder::flush` — drains the Internal
Buffer fully to the destination and flushes the destination; does not
end the frame and is retryable on `WouldBlock`. -/
def Encoder.flush (e : Encoder) : Except Err Encoder :=
  match drain e.dest e.pending with
  | (w2, _, none) =>
    match Sink.flushSink w2 with
    | .ok w3 => .ok { e with dest := w3, pending := [] }
    | .error er => .error er
  | (_, _, some er) => .error er

/-- Modelled from the spec: `Encoder::try_finish`. On the first call the
frame footer is staged and the Encoder enters the `finishing` phase; each
call (first or retried) then drains the Internal Buffer. On full success
the destination is returned (the adapter is consumed); on failure the
Encoder itself is returned with the error, its codec context and buffer
cursors exactly where the failed attempt left them. -/
def Encoder.tryFinish (e : Encoder) : Except (Encoder × Err) Sink :=
  let e1 := match e.phase with
    | .active => { e with pending := e.pending ++ [0], phase := .finishing }
    | _ => e
  match drain e1.dest e1.pending with
  | (w2, _, none) => .ok w2
  | (w2, p2, some er) => .error ({ e1 with dest := w2, pending := p2 }, er)

/-- Modelled from the spec: `Encoder::finish` — drives `try_finish` to
completion (with a deterministic sink a retry reproduces the same
attempt, so a single attempt decides the outcome). -/
def Encoder.finish (e : Encoder) : Except Err Sink :=
  match e.tryFinish with
  | .ok w => .ok w
  | .error (_, er) => .error er

/-- Modelled from the spec: the Decoder adapter (`src/stream/decoder.rs`
is absent from `src/`): the unread remainder of the source and the
single-frame mode flag. -/
structure Decoder where
  source : List Nat
  singleFrame : Bool
  deriving DecidableEq, Repr

/-- Modelled from the spec: `Decoder::new` wraps the source positioned at
the start of a frame; construction does not validate the source's
content, so it succeeds whatever bytes the source holds. -/
def Decoder.new (source : List Nat) : Except Err Decoder :=
  .ok ⟨source, false⟩

/-- Modelled from the spec: `Decoder::single_frame`, the consuming
transformation that sets single-frame mode (called before any read). -/
def Decoder.single_frame (d : Decoder) : Decoder :=
  { d with singleFrame := true }

/-- Modelled from the spec: reading the Decoder to exhaustion
(`read_to_end`, driving `read` until it returns 0). In single-frame mode
exactly the first frame is decoded and the bytes after it are left
unconsumed in the source; otherwise the Decoder scans across frame
boundaries until the source is empty. Returns the decompressed bytes and
the Decoder's final state. -/
def Decoder.readToEnd (d : Decoder) : Except Err (List Nat × Decoder) :=
  if d.singleFrame then
    match d.source with
    | [] => .ok ([], d)
    | a :: b :: c :: t :: rest =>
      if a = 40 ∧ b = 181 ∧ c = 47 ∧ recognizedTag t then
        match readFrameBody rest with
        | .ok (content, rest2) => .ok (content, { d with source := rest2 })
        | .error e => .error e
      else .error .other
    | _ => .error .other
  else
    match decodeStream d.source with
    | .ok content => .ok (content, { d with source := [] })
    | .error e => .error e

/-- `encode_all` from `src/stream/mod.rs` (lines 39-43): compress all
data into a fresh buffer by way of `copy_encode` (lines 48-57), which
builds an `Encoder` over the destination, copies the source into it, and
calls `finish`. The destination buffer is a sink accepting everything. -/
def encode_all (data : List Nat) (level : Int) : Except Err (List Nat) :=
  match Encoder.new ⟨[], some 0⟩ level with
  | .error e => .error e
  | .ok e0 =>
    match e0.write data with
    | .error e => .error e
    | .ok (e1, _) =>
      match e1.finish with
      | .ok w => .ok w.inner
      | .error e => .error e

/-- `decode_all` from `src/stream/mod.rs` (lines 18-22): decompress the
whole source into a fresh buffer by way of `copy_decode` (lines 27-34),
which builds a `Decoder` and copies it out until end of stream. -/
def decode_all (input : List Nat) : Except Err (List Nat) :=
  match Decoder.new input with
  | .error e => .error e
  | .ok d =>
    match d.readToEnd with
    | .ok (content, _) => .ok content
    | .error e => .error e

theorem drain_acceptAll (i p : List Nat) :
    drain ⟨i, some 0⟩ p = (⟨i ++ p, some 0⟩, [], none) := by
  match p with
  | [] => simp [drain]
  | x :: xs =>
    rw [drain]
    have hw : Sink.write ⟨i, some 0⟩ (x :: xs)
        = .ok (⟨i ++ (x :: xs), some 0⟩, (x :: xs).length) := rfl
    rw [hw]
    simp only [List.length_cons]
    rw [if_neg (by omega)]
    have hd : (x :: xs).drop (xs.length + 1) = [] := by
      apply List.drop_eq_nil_of_le
      simp
    rw [hd, drain]

theorem drain_blocked (i : List Nat) (x : Nat) (xs : List Nat) :
    drain ⟨i, none⟩ (x :: xs) = (⟨i, none⟩, x :: xs, some .wouldBlock) := by
  rw [drain]
  rfl

theorem decode_all_eq (input : List Nat) :
    decode_all input = decodeStream input := by
  rw [decode_all.eq_def, Decoder.new]
  dsimp only
  rw [Decoder.readToEnd.eq_def]
  simp only [Bool.false_eq_true, if_false]
  match decodeStream input with
  | .ok c => rfl
  | .error e => rfl

theorem encode_all_eq {level : Int} (hl : validLevel level = true)
    (data : List Nat) :
    encode_all data level = .ok (MAGIC ++ encodeFrameBody data) := by
  rw [encode_all.eq_def, Encoder.new, if_pos hl]
  dsimp only
  match data with
  | [] =>
    rw [Encoder.write.eq_def]
    simp only [drain_acceptAll, List.isEmpty_nil, if_true]
    rw [Encoder.finish.eq_def, Encoder.tryFinish.eq_def]
    simp only [List.nil_append, drain_acceptAll]
    rw [encodeFrameBody]
    simp
  | d :: ds =>
    rw [Encoder.write.eq_def]
    simp only [drain_acceptAll, List.isEmpty_cons, Bool.false_eq_true, if_false]
    rw [Encoder.finish.eq_def, Encoder.tryFinish.eq_def]
    simp only [drain_acceptAll, List.nil_append]
    rw [encodeFrameBody]
    simp

theorem decode_all_frames (t : Nat) (ht : recognizedTag t = true)
    (B rest : List Nat) :
    decode_all (40 :: 181 :: 47 :: t :: (encodeFrameBody B ++ rest))
      = match decode_all rest with
        | .ok more => .ok (B ++ more)
        | .error e => .error e := by
  rw [decode_all_eq, decode_all_eq, decodeStream_frame t ht]

theorem MAGIC_cons (l : List Nat) : MAGIC ++ l = 40 :: 181 :: 47 :: 253 :: l := rfl

theorem drain_blocked_ne (i : List Nat) {q : List Nat} (hq : q ≠ []) :
    drain ⟨i, none⟩ q = (⟨i, none⟩, q, some .wouldBlock) := by
  match q with
  | [] => exact absurd rfl hq
  | x :: xs => exact drain_blocked i x xs

theorem decode_all_single (B : List Nat) :
    decode_all (MAGIC ++ encodeFrameBody B) = .ok B := by
  rw [decode_all_eq, MAGIC_cons, decodeStream_single 253 rfl]

theorem decode_all_magic_frame (B rest : List Nat) :
    decode_all ((MAGIC ++ encodeFrameBody B) ++ rest)
      = match decode_all rest with
        | .ok more => .ok (B ++ more)
        | .error e => .error e := by
  have hshape : (MAGIC ++ encodeFrameBody B) ++ rest
      = 40 :: 181 :: 47 :: 253 :: (encodeFrameBody B ++ rest) := by
    simp [MAGIC]
  rw [hshape, decode_all_eq, decodeStream_frame 253 rfl]
  rw [decode_all_eq]

theorem readFrameBody_short (n : Nat) (t2 : List Nat) (h : t2.length ≤ n) :
    readFrameBody (1 :: (encodeVarint n ++ t2)) = .error .unexpectedEof := by
  rw [readFrameBody]
  rw [if_neg (by decide), if_pos rfl]
  split
  · rename_i heq
    rw [decodeVarint_encodeVarint] at heq
  · rename_i m r heq
    rw [decodeVarint_encodeVarint] at heq
    cases heq
    by_cases hlt : t2.length < n
    · rw [dif_neg (by omega)]
    · have heqn : n = t2.length := by omega
      rw [dif_pos (by omega)]
      have hdrop : t2.drop n = [] := List.drop_eq_nil_of_le (by omega)
      rw [hdrop]
      have hnil : readFrameBody [] = .error .unexpectedEof := by rw [readFrameBody]
      rw [hnil]

theorem decodeStream_garbage (input : List Nat) (hne : input ≠ [])
    (hbad : ∀ t rest, input = 40 :: 181 :: 47 :: t :: rest → recognizedTag t = false) :
    decodeStream input = .error .other := by
  match input with
  | [] => exact absurd rfl hne
  | [a] => rw [decodeStream.eq_def]
  | [a, b] => rw [decodeStream.eq_def]
  | [a, b, c] => rw [decodeStream.eq_def]
  | a :: b :: c :: t :: rest =>
    rw [decodeStream]
    split
    · rename_i hcond
      obtain ⟨rfl, rfl, rfl, ht⟩ := hcond
      exact absurd (hbad t rest rfl) (by simp [ht])
    · rfl

/-- Modelled from the spec: a compressor for legacy format revision `v`.
The legacy fixtures `assets/example.txt.v5.zst` … `v8.zst` used by the
legacy test are not in `src/`; per the spec a legacy revision is
"distinguished by its magic number" and "must decode identically to the
current format", so it is the same frame body behind the revision's
magic. -/
def encodeLegacy (v : Nat) (data : List Nat) : List Nat :=
  legacyMagic v ++ encodeFrameBody data

/-- The `test_flush` scenario (`src/stream/mod.rs` lines 96-110): build
an Encoder over a plain buffer, write the data, `flush` mid-stream, then
`finish`, returning the compressed output. -/
def writeFlushFinish (data : List Nat) (level : Int) : Except Err (List Nat) :=
  match Encoder.new ⟨[], some 0⟩ level with
  | .error e => .error e
  | .ok e0 =>
    match e0.write data with
    | .error e => .error e
    | .ok (e1, _) =>
      match e1.flush with
      | .error e => .error e
      | .ok e2 =>
        match e2.finish with
        | .ok w => .ok w.inner
        | .error e => .error e

/-- C1: for every byte sequence `B` and every compression level `L`
accepted by Encoder construction, decoding the result of encoding `B` at
level `L` succeeds and returns exactly `B`:
`decode_all (encode_all B L) = B`. -/
theorem C1_round_trip (B : List Nat) (L : Int) (hL : validLevel L = true) :
    ∃ out, encode_all B L = .ok out ∧ decode_all out = .ok B :=
  ⟨MAGIC ++ encodeFrameBody B, encode_all_eq hL B, decode_all_single B⟩

theorem C1_round_trip_witness :
    validLevel 3 = true ∧
    ∃ out, encode_all [102, 111, 111] 3 = .ok out ∧
      decode_all out = .ok [102, 111, 111] :=
  ⟨by decide, C1_round_trip [102, 111, 111] 3 (by decide)⟩

/-- C2: for all byte sequences `A`, `B`, `C` and valid levels `L1`, `L2`,
`L3`, decoding the byte-concatenation of the three separately encoded
frames yields the concatenation of the plaintexts — the Decoder crosses
frame boundaries transparently when single-frame mode is not set. -/
theorem C2_concatenated_frames (A B C : List Nat) (L1 L2 L3 : Int)
    (h1 : validLevel L1 = true) (h2 : validLevel L2 = true)
    (h3 : validLevel L3 = true) (oa ob oc : List Nat)
    (ha : encode_all A L1 = .ok oa) (hb : encode_all B L2 = .ok ob)
    (hc : encode_all C L3 = .ok oc) :
    decode_all (oa ++ ob ++ oc) = .ok (A ++ B ++ C) := by
  rw [encode_all_eq h1] at ha
  rw [encode_all_eq h2] at hb
  rw [encode_all_eq h3] at hc
  cases ha
  cases hb
  cases hc
  rw [List.append_assoc, decode_all_magic_frame, decode_all_magic_frame,
    decode_all_single]
  simp [List.append_assoc]

theorem C2_concatenated_frames_witness :
    validLevel 1 = true ∧ validLevel 2 = true ∧ validLevel 3 = true ∧
    decode_all ((MAGIC ++ encodeFrameBody [102]) ++ (MAGIC ++ encodeFrameBody [98])
        ++ (MAGIC ++ encodeFrameBody [122]))
      = .ok ([102] ++ [98] ++ [122]) :=
  ⟨by decide, by decide, by decide,
    C2_concatenated_frames [102] [98] [122] 1 2 3 (by decide) (by decide)
      (by decide) _ _ _ (encode_all_eq (by decide) [102])
      (encode_all_eq (by decide) [98]) (encode_all_eq (by decide) [122])⟩

/-- C3: when `try_finish` fails because the destination would block, it
returns the Encoder itself with the error, its buffer exactly where the
failed attempt left it (footer staged, nothing drained, `finishing`
phase); re-invoking `try_finish` once the destination accepts bytes
succeeds, and the destination then holds exactly the bytes an
uninterrupted finish from the same state would have produced. -/
theorem C3_try_finish_retry (i p : List Nat) :
    Encoder.tryFinish ⟨⟨i, none⟩, p, .active⟩
        = .error (⟨⟨i, none⟩, p ++ [0], .finishing⟩, .wouldBlock) ∧
    Encoder.tryFinish ⟨⟨i, some 0⟩, p ++ [0], .finishing⟩
        = .ok ⟨i ++ (p ++ [0]), some 0⟩ ∧
    Encoder.tryFinish ⟨⟨i, some 0⟩, p, .active⟩
        = .ok ⟨i ++ (p ++ [0]), some 0⟩ := by
  refine ⟨?_, ?_, ?_⟩
  · rw [Encoder.tryFinish.eq_def]
    dsimp only
    rw [drain_blocked_ne i (by simp)]
  · rw [Encoder.tryFinish.eq_def]
    dsimp only
    rw [drain_acceptAll]
  · rw [Encoder.tryFinish.eq_def]
    dsimp only
    rw [drain_acceptAll]

/-- C4: calling `write` on an Encoder after a finish has been initiated
and failed with would-block (the adapter handed back by the failed
`try_finish`) is a caller contract violation that fails loudly instead of
accepting bytes. -/
theorem C4_write_after_try_finish (e e2 : Encoder) (er : Err)
    (data : List Nat) (h : e.tryFinish = .error (e2, er)) :
    e2.write data = .error .violation := by
  obtain ⟨dest, pending, phase⟩ := e
  cases phase
  all_goals
    rw [Encoder.tryFinish.eq_def] at h
  all_goals
    dsimp only at h
  all_goals
    split at h
  · cases h
  · cases h
    rw [Encoder.write.eq_def]
  · cases h
  · cases h
    rw [Encoder.write.eq_def]
  · cases h
  · cases h
    rw [Encoder.write.eq_def]

theorem C4_write_after_try_finish_witness :
    Encoder.tryFinish ⟨⟨[], none⟩, [], .active⟩
        = .error (⟨⟨[], none⟩, [0], .finishing⟩, .wouldBlock) ∧
    Encoder.write ⟨⟨[], none⟩, [0], .finishing⟩ [104] = .error .violation := by
  have h : Encoder.tryFinish ⟨⟨[], none⟩, [], .active⟩
      = .error (⟨⟨[], none⟩, [0], .finishing⟩, .wouldBlock) := by
    rw [Encoder.tryFinish.eq_def]
    dsimp only
    rw [drain_blocked_ne [] (by simp)]
    rfl
  exact ⟨h, C4_write_after_try_finish ⟨⟨[], none⟩, [], .active⟩
    ⟨⟨[], none⟩, [0], .finishing⟩ .wouldBlock [104] h⟩

/-- C5: removing trailing bytes from a valid compressed stream, so that
the frame's declared content (or its closing footer) cannot be fully
consumed, makes decoding fail with the truncation error `UnexpectedEof` —
not with the generic corruption error `Other`. -/
theorem C5_truncated_eof (B : List Nat) (hB : B ≠ []) (L : Int)
    (hL : validLevel L = true) (out : List Nat) (he : encode_all B L = .ok out)
    (k : Nat) (hk1 : 1 ≤ k) (hk2 : k ≤ B.length + 1) :
    decode_all (out.take (out.length - k)) = .error .unexpectedEof := by
  obtain ⟨d, ds, rfl⟩ := List.exists_cons_of_ne_nil hB
  rw [encode_all_eq hL] at he
  cases he
  simp only [List.length_cons] at hk2
  have hshape : MAGIC ++ encodeFrameBody (d :: ds)
      = (40 :: 181 :: 47 :: 253 :: 1 :: encodeVarint (d :: ds).length)
        ++ ((d :: ds) ++ [0]) := by
    simp [MAGIC, encodeFrameBody]
  rw [hshape]
  have harith : ((40 :: 181 :: 47 :: 253 :: 1 :: encodeVarint (d :: ds).length)
        ++ ((d :: ds) ++ [0])).length - k
      = (40 :: 181 :: 47 :: 253 :: 1 :: encodeVarint (d :: ds).length).length
        + ((d :: ds).length + 1 - k) := by
    simp only [List.length_append, List.length_cons, List.length_nil]
    omega
  rw [harith, List.take_append]
  have hTle : (((d :: ds) ++ [0]).take ((d :: ds).length + 1 - k)).length
      ≤ (d :: ds).length := by
    simp only [List.length_take, List.length_append, List.length_cons,
      List.length_nil]
    omega
  have hshape2 : (40 :: 181 :: 47 :: 253 :: 1 :: encodeVarint (d :: ds).length)
        ++ (((d :: ds) ++ [0]).take ((d :: ds).length + 1 - k))
      = 40 :: 181 :: 47 :: 253 :: (1 :: (encodeVarint (d :: ds).length
          ++ (((d :: ds) ++ [0]).take ((d :: ds).length + 1 - k)))) := by
    simp
  rw [hshape2, decode_all_eq, decodeStream]
  rw [if_pos ⟨rfl, rfl, rfl, rfl⟩]
  rw [readFrameBody_short _ _ hTle]

theorem C5_truncated_eof_witness :
    validLevel 1 = true ∧
    decode_all ((MAGIC ++ encodeFrameBody [84, 104, 105]).take
        ((MAGIC ++ encodeFrameBody [84, 104, 105]).length - 2))
      = .error .unexpectedEof :=
  ⟨by decide, C5_truncated_eof [84, 104, 105] (by decide) 1 (by decide) _
    (encode_all_eq (by decide) [84, 104, 105]) 2 (by decide) (by decide)⟩

/-- C6: for every nonempty input whose leading bytes are not a
recognized frame (bad magic), `Decoder` reading fails with the generic
decode-failure error `Other` — not with `UnexpectedEof` (and, the model
being a total function, without panicking). -/
theorem C6_invalid_frame (input : List Nat) (hne : input ≠ [])
    (hbad : ∀ t rest, input = 40 :: 181 :: 47 :: t :: rest →
      recognizedTag t = false) :
    decode_all input = .error .other := by
  rw [decode_all_eq]
  exact decodeStream_garbage input hne hbad

theorem C6_invalid_frame_witness :
    ([1, 2, 3, 4, 5] : List Nat) ≠ [] ∧
    decode_all [1, 2, 3, 4, 5] = .error .other :=
  ⟨by decide, C6_invalid_frame [1, 2, 3, 4, 5] (by decide)
    (by intro t rest h; simp at h)⟩

/-- C7: with single-frame mode set (via the consuming `single_frame`
transformation, before any read), reading decodes exactly the first
frame's content and stops; the bytes following the first frame are left
unconsumed in the source. -/
theorem C7_single_frame_mode (B extra : List Nat) (L : Int)
    (hL : validLevel L = true) (out : List Nat)
    (he : encode_all B L = .ok out) (d : Decoder)
    (hd : Decoder.new (out ++ extra) = .ok d) :
    d.single_frame.readToEnd = .ok (B, ⟨extra, true⟩) := by
  rw [encode_all_eq hL] at he
  cases he
  rw [Decoder.new] at hd
  cases hd
  rw [Decoder.single_frame, Decoder.readToEnd.eq_def]
  dsimp only
  rw [if_pos rfl]
  have hshape : (MAGIC ++ encodeFrameBody B) ++ extra
      = 40 :: 181 :: 47 :: 253 :: (encodeFrameBody B ++ extra) := by
    simp [MAGIC]
  rw [hshape]
  dsimp only
  rw [if_pos ⟨rfl, rfl, rfl, rfl⟩, readFrameBody_encodeFrameBody]

theorem C7_single_frame_mode_witness :
    validLevel 1 = true ∧
    (Decoder.single_frame ⟨(MAGIC ++ encodeFrameBody [102, 111, 111]) ++ [0],
        false⟩).readToEnd
      = .ok ([102, 111, 111], ⟨[0], true⟩) :=
  ⟨by decide, C7_single_frame_mode [102, 111, 111] [0] 1 (by decide) _
    (encode_all_eq (by decide) [102, 111, 111]) _ rfl⟩

/-- C8: a plaintext compressed under each of the four historical legacy
format revisions (versions 5, 6, 7, 8) decodes, through the same
Decoder read interface with the format auto-detected from the leading
magic bytes, to a result identical to the original plaintext. -/
theorem C8_legacy_decoding (v : Nat) (hv : v = 5 ∨ v = 6 ∨ v = 7 ∨ v = 8)
    (data : List Nat) :
    decode_all (encodeLegacy v data) = .ok data := by
  have ht : recognizedTag v = true := by
    rcases hv with rfl | rfl | rfl | rfl <;> rfl
  have hshape : encodeLegacy v data
      = 40 :: 181 :: 47 :: v :: encodeFrameBody data := rfl
  rw [hshape, decode_all_eq, decodeStream_single v ht]

theorem C8_legacy_decoding_witness :
    ((5 : Nat) = 5 ∨ (5 : Nat) = 6 ∨ (5 : Nat) = 7 ∨ (5 : Nat) = 8) ∧
    decode_all (encodeLegacy 5 [101, 120]) = .ok [101, 120] ∧
    decode_all (encodeLegacy 6 [101, 120]) = .ok [101, 120] ∧
    decode_all (encodeLegacy 7 [101, 120]) = .ok [101, 120] ∧
    decode_all (encodeLegacy 8 [101, 120]) = .ok [101, 120] :=
  ⟨Or.inl rfl,
    C8_legacy_decoding 5 (by decide) [101, 120],
    C8_legacy_decoding 6 (by decide) [101, 120],
    C8_legacy_decoding 7 (by decide) [101, 120],
    C8_legacy_decoding 8 (by decide) [101, 120]⟩

theorem write_acceptAll_nil (i p : List Nat) :
    Encoder.write ⟨⟨i, some 0⟩, p, .active⟩ []
      = .ok (⟨⟨i ++ p, some 0⟩, [], .active⟩, 0) := by
  rw [Encoder.write.eq_def]
  dsimp only
  rw [drain_acceptAll]
  rfl

theorem write_acceptAll_cons (i p : List Nat) (d : Nat) (ds : List Nat) :
    Encoder.write ⟨⟨i, some 0⟩, p, .active⟩ (d :: ds)
      = .ok (⟨⟨(i ++ p) ++ (1 :: (encodeVarint (d :: ds).length ++ (d :: ds))),
          some 0⟩, [], .active⟩, (d :: ds).length) := by
  rw [Encoder.write.eq_def]
  dsimp only
  rw [drain_acceptAll]
  dsimp only
  rw [if_neg (by simp)]
  rw [drain_acceptAll]

theorem flush_acceptAll (i p : List Nat) (ph : EncPhase) :
    Encoder.flush ⟨⟨i, some 0⟩, p, ph⟩ = .ok ⟨⟨i ++ p, some 0⟩, [], ph⟩ := by
  rw [Encoder.flush.eq_def]
  dsimp only
  rw [drain_acceptAll]
  rfl

theorem tryFinish_acceptAll_active (i p : List Nat) :
    Encoder.tryFinish ⟨⟨i, some 0⟩, p, .active⟩ = .ok ⟨i ++ (p ++ [0]), some 0⟩ := by
  rw [Encoder.tryFinish.eq_def]
  dsimp only
  rw [drain_acceptAll]

theorem finish_acceptAll_active (i p : List Nat) :
    Encoder.finish ⟨⟨i, some 0⟩, p, .active⟩ = .ok ⟨i ++ (p ++ [0]), some 0⟩ := by
  rw [Encoder.finish.eq_def, tryFinish_acceptAll_active]

/-- C9: calling `flush` on an Encoder mid-stream (after writes, before
finish) does not end the frame and does not prevent a subsequent
`finish` from producing a valid stream: write, then flush, then finish
yields output that decodes back to exactly the bytes written. -/
theorem C9_flush_mid_stream (B : List Nat) (L : Int)
    (hL : validLevel L = true) :
    ∃ out, writeFlushFinish B L = .ok out ∧ decode_all out = .ok B := by
  refine ⟨MAGIC ++ encodeFrameBody B, ?_, decode_all_single B⟩
  rw [writeFlushFinish.eq_def, Encoder.new, if_pos hL]
  dsimp only
  match B with
  | [] =>
    rw [write_acceptAll_nil]
    dsimp only
    rw [flush_acceptAll]
    dsimp only
    rw [finish_acceptAll_active]
    simp [encodeFrameBody]
  | d :: ds =>
    rw [write_acceptAll_cons]
    dsimp only
    rw [flush_acceptAll]
    dsimp only
    rw [finish_acceptAll_active]
    simp [encodeFrameBody, MAGIC]

theorem C9_flush_mid_stream_witness :
    validLevel 19 = true ∧
    ∃ out, writeFlushFinish [104, 101, 108, 108, 111] 19 = .ok out ∧
      decode_all out = .ok [104, 101, 108, 108, 111] :=
  ⟨by decide, C9_flush_mid_stream [104, 101, 108, 108, 111] 19 (by decide)⟩

/-- C10: Decoder construction does not validate the source's content:
`Decoder::new` succeeds whatever bytes the source holds, and corruption
is only reported by the first read call, never by construction. -/
theorem C10_new_no_validation (input : List Nat) :
    Decoder.new input = .ok ⟨input, false⟩ ∧
    (input ≠ [] →
      (∀ t rest, input = 40 :: 181 :: 47 :: t :: rest →
        recognizedTag t = false) →
      ∃ d, Decoder.new input = .ok d ∧ d.readToEnd = .error .other) := by
  refine ⟨rfl, fun hne hbad => ⟨⟨input, false⟩, rfl, ?_⟩⟩
  rw [Decoder.readToEnd.eq_def]
  dsimp only
  rw [if_neg (by simp)]
  rw [decodeStream_garbage input hne hbad]

theorem C10_new_no_validation_witness :
    Decoder.new [9, 9, 9, 9] = .ok ⟨[9, 9, 9, 9], false⟩ ∧
    ∃ d, Decoder.new [9, 9, 9, 9] = .ok d ∧ d.readToEnd = .error .other :=
  ⟨(C10_new_no_validation [9, 9, 9, 9]).1,
   (C10_new_no_validation [9, 9, 9, 9]).2 (by decide)
     (by intro t rest h; simp at h)⟩
